import Mathlib

/-!
Verification of the price-predictor training script
(`src/models/price_predictor/train.py`) of the cauldron-oracle repository.

The script's numpy float arrays are modelled as real-valued matrices
(`Matrix (Fin m) (Fin n) ℝ`); numpy's elementwise arithmetic, matrix
products (`np.dot`), transposes and axis reductions become the
corresponding Mathlib operations.  Each definition below mirrors one
function (or one local variable of one function) of the source file.
-/

open Matrix

noncomputable section

namespace PricePredictor

/-- Source `relu` of `train.py`: `np.maximum(0, x)`, elementwise. -/
def relu (x : ℝ) : ℝ := max 0 x

/-- Source `relu_derivative` of `train.py`: `(x > 0).astype(float)`, elementwise. -/
def relu_derivative (x : ℝ) : ℝ := if 0 < x then 1 else 0

/-- Row maximum, `np.max(x, axis=-1, keepdims=True)` for one row
(nonempty, as numpy's `max` requires). -/
def rowMax {n : ℕ} (v : Fin (n + 1) → ℝ) : ℝ :=
  Finset.univ.sup' Finset.univ_nonempty v

/-- One row of `softmax` of `train.py`:
`exp_x = np.exp(x - np.max(x, axis=-1, keepdims=True))` followed by
`exp_x / np.sum(exp_x, axis=-1, keepdims=True)`. -/
def softmaxRow {n : ℕ} (v : Fin (n + 1) → ℝ) : Fin (n + 1) → ℝ :=
  fun i => Real.exp (v i - rowMax v) / ∑ j, Real.exp (v j - rowMax v)

/-- Source `softmax` of `train.py`, applied row-wise to a matrix (axis = -1). -/
def softmax {m n : ℕ} (Z : Matrix (Fin m) (Fin (n + 1)) ℝ) :
    Matrix (Fin m) (Fin (n + 1)) ℝ :=
  Matrix.of fun i => softmaxRow (Z i)

/-- The sum of shifted exponentials over a row is positive. -/
lemma sum_exp_shift_pos {n : ℕ} (v : Fin (n + 1) → ℝ) :
    0 < ∑ j, Real.exp (v j - rowMax v) :=
  Finset.sum_pos (fun j _ => Real.exp_pos _) Finset.univ_nonempty

lemma softmaxRow_pos {n : ℕ} (v : Fin (n + 1) → ℝ) (i : Fin (n + 1)) :
    0 < softmaxRow v i :=
  div_pos (Real.exp_pos _) (sum_exp_shift_pos v)

lemma softmaxRow_sum_eq_one {n : ℕ} (v : Fin (n + 1) → ℝ) :
    (∑ i, softmaxRow v i) = 1 := by
  unfold softmaxRow
  rw [← Finset.sum_div]
  exact div_self (ne_of_gt (sum_exp_shift_pos v))

lemma softmaxRow_le_one {n : ℕ} (v : Fin (n + 1) → ℝ) (i : Fin (n + 1)) :
    softmaxRow v i ≤ 1 := by
  unfold softmaxRow
  rw [div_le_one (sum_exp_shift_pos v)]
  exact Finset.single_le_sum (f := fun j => Real.exp (v j - rowMax v))
    (fun j _ => (Real.exp_pos _).le) (Finset.mem_univ i)

lemma softmaxRow_lt_one {n : ℕ} (hn : 1 ≤ n) (v : Fin (n + 1) → ℝ)
    (i : Fin (n + 1)) : softmaxRow v i < 1 := by
  unfold softmaxRow
  rw [div_lt_one (sum_exp_shift_pos v)]
  have hmem : i ∈ (Finset.univ : Finset (Fin (n + 1))) := Finset.mem_univ i
  rw [← Finset.add_sum_erase _ _ hmem]
  have herase : ((Finset.univ : Finset (Fin (n + 1))).erase i).Nonempty := by
    rw [← Finset.card_pos, Finset.card_erase_of_mem hmem, Finset.card_univ,
      Fintype.card_fin]
    omega
  have : 0 < ∑ j ∈ (Finset.univ : Finset (Fin (n + 1))).erase i,
      Real.exp (v j - rowMax v) :=
    Finset.sum_pos (fun j _ => Real.exp_pos _) herase
  linarith

/-- The max-subtraction is sound: the shifted softmax equals the unshifted
definition. -/
lemma softmaxRow_eq_unshifted {n : ℕ} (v : Fin (n + 1) → ℝ) (i : Fin (n + 1)) :
    softmaxRow v i = Real.exp (v i) / ∑ j, Real.exp (v j) := by
  unfold softmaxRow
  have hE : Real.exp (rowMax v) ≠ 0 := Real.exp_ne_zero _
  have hs : ∀ j : Fin (n + 1), Real.exp (v j - rowMax v)
      = Real.exp (v j) / Real.exp (rowMax v) := fun j => Real.exp_sub _ _
  simp only [hs]
  rw [← Finset.sum_div, div_div_div_cancel_right₀ hE]

/-- The classifier's parameters (`self.W1`, `self.b1`, `self.W2`, `self.b2`),
with the sizes `train` passes to the constructor:
`input_size=4`, `hidden_size=16`, `output_size=3`. -/
structure Net where
  W1 : Matrix (Fin 4) (Fin 16) ℝ
  b1 : Fin 16 → ℝ
  W2 : Matrix (Fin 16) (Fin 3) ℝ
  b2 : Fin 3 → ℝ

/-- The intermediate activations `self.z1`, `self.a1`, `self.z2`, `self.a2`
cached by `forward` for a batch of `m` samples. -/
structure Acts (m : ℕ) where
  z1 : Matrix (Fin m) (Fin 16) ℝ
  a1 : Matrix (Fin m) (Fin 16) ℝ
  z2 : Matrix (Fin m) (Fin 3) ℝ
  a2 : Matrix (Fin m) (Fin 3) ℝ

/-- Source `forward` of `train.py`:
`z1 = x·W1 + b1`, `a1 = relu(z1)`, `z2 = a1·W2 + b2`, `a2 = softmax(z2)`
(the bias vectors broadcast over the batch rows). -/
def forwardActs {m : ℕ} (p : Net) (x : Matrix (Fin m) (Fin 4) ℝ) : Acts m :=
  let z1 : Matrix (Fin m) (Fin 16) ℝ := Matrix.of fun i j => (x * p.W1) i j + p.b1 j
  let a1 : Matrix (Fin m) (Fin 16) ℝ := Matrix.of fun i j => relu (z1 i j)
  let z2 : Matrix (Fin m) (Fin 3) ℝ := Matrix.of fun i j => (a1 * p.W2) i j + p.b2 j
  { z1 := z1, a1 := a1, z2 := z2, a2 := softmax z2 }

/-- Source `dz2 = self.a2 - y` in `backward`. -/
def dz2 {m : ℕ} (a : Acts m) (y : Matrix (Fin m) (Fin 3) ℝ) :
    Matrix (Fin m) (Fin 3) ℝ := a.a2 - y

/-- Source `dW2 = np.dot(self.a1.T, dz2) / m` in `backward`. -/
def dW2 {m : ℕ} (a : Acts m) (y : Matrix (Fin m) (Fin 3) ℝ) :
    Matrix (Fin 16) (Fin 3) ℝ :=
  Matrix.of fun i j => ((a.a1)ᵀ * dz2 a y) i j / (m : ℝ)

/-- Source `db2 = np.sum(dz2, axis=0) / m` in `backward`. -/
def db2 {m : ℕ} (a : Acts m) (y : Matrix (Fin m) (Fin 3) ℝ) : Fin 3 → ℝ :=
  fun j => (∑ i, dz2 a y i j) / (m : ℝ)

/-- Source `da1 = np.dot(dz2, self.W2.T)` in `backward`. -/
def da1 {m : ℕ} (p : Net) (a : Acts m) (y : Matrix (Fin m) (Fin 3) ℝ) :
    Matrix (Fin m) (Fin 16) ℝ := dz2 a y * (p.W2)ᵀ

/-- Source `dz1 = da1 * relu_derivative(self.z1)` in `backward` (elementwise). -/
def dz1 {m : ℕ} (p : Net) (a : Acts m) (y : Matrix (Fin m) (Fin 3) ℝ) :
    Matrix (Fin m) (Fin 16) ℝ :=
  Matrix.of fun i j => da1 p a y i j * relu_derivative (a.z1 i j)

/-- Source `dW1 = np.dot(x.T, dz1) / m` in `backward`. -/
def dW1 {m : ℕ} (p : Net) (a : Acts m) (x : Matrix (Fin m) (Fin 4) ℝ)
    (y : Matrix (Fin m) (Fin 3) ℝ) : Matrix (Fin 4) (Fin 16) ℝ :=
  Matrix.of fun i j => (xᵀ * dz1 p a y) i j / (m : ℝ)

/-- Source `db1 = np.sum(dz1, axis=0) / m` in `backward`. -/
def db1 {m : ℕ} (p : Net) (a : Acts m) (y : Matrix (Fin m) (Fin 3) ℝ) :
    Fin 16 → ℝ :=
  fun j => (∑ i, dz1 p a y i j) / (m : ℝ)

/-- Source `backward` of `train.py`: compute the four averaged gradients from the
cached activations `a`, then update every parameter in place by
`parameter -= learning_rate * gradient`.  Returns the updated parameters. -/
def backwardNet {m : ℕ} (p : Net) (a : Acts m) (x : Matrix (Fin m) (Fin 4) ℝ)
    (y : Matrix (Fin m) (Fin 3) ℝ) (lr : ℝ) : Net where
  W1 := Matrix.of fun i j => p.W1 i j - lr * dW1 p a x y i j
  b1 := fun j => p.b1 j - lr * db1 p a y j
  W2 := Matrix.of fun i j => p.W2 i j - lr * dW2 a y i j
  b2 := fun j => p.b2 j - lr * db2 a y j

end PricePredictor

namespace PricePredictor

/-- C1: `backward(X, Y, learning_rate)` performs exactly one plain
gradient-descent step on the cached activations: the output-layer gradient is
`A2 - Y`, the hidden-layer gradient is gated by the ReLU derivative
(1 where `Z1 > 0`, else 0), all four gradients are averaged over the batch
dimension (division by `m`), and each parameter is replaced by
`parameter - learning_rate * averaged gradient`. -/
theorem backward_single_gd_step {m : ℕ} (p : Net) (a : Acts m)
    (x : Matrix (Fin m) (Fin 4) ℝ) (y : Matrix (Fin m) (Fin 3) ℝ) (lr : ℝ) :
    (∀ i j, (backwardNet p a x y lr).W2 i j
      = p.W2 i j - lr * ((∑ k, a.a1 k i * (a.a2 k j - y k j)) / (m : ℝ))) ∧
    (∀ j, (backwardNet p a x y lr).b2 j
      = p.b2 j - lr * ((∑ k, (a.a2 k j - y k j)) / (m : ℝ))) ∧
    (∀ i j, (backwardNet p a x y lr).W1 i j
      = p.W1 i j - lr * ((∑ k, x k i *
          ((∑ l, (a.a2 k l - y k l) * p.W2 j l)
            * (if 0 < a.z1 k j then (1 : ℝ) else 0))) / (m : ℝ))) ∧
    (∀ j, (backwardNet p a x y lr).b1 j
      = p.b1 j - lr * ((∑ k, (∑ l, (a.a2 k l - y k l) * p.W2 j l)
            * (if 0 < a.z1 k j then (1 : ℝ) else 0)) / (m : ℝ))) := by
  refine ⟨fun i j => ?_, fun j => ?_, fun i j => ?_, fun j => ?_⟩ <;>
    simp [backwardNet, dW1, db1, dW2, db2, dz1, da1, dz2, relu_derivative,
      Matrix.mul_apply, Matrix.sub_apply]

/-- C2 (counterexample): as stated, the claim is false: a matrix with a
single column has every softmax entry equal to 1, which is not strictly
inside (0,1).  Witnessed by the 1×1 zero matrix. -/
theorem softmax_one_column_entry_not_lt_one :
    ¬ (softmax (Matrix.of fun _ _ => (0 : ℝ) : Matrix (Fin 1) (Fin 1) ℝ) 0 0 < 1) := by
  have h : softmax (Matrix.of fun _ _ => (0 : ℝ) : Matrix (Fin 1) (Fin 1) ℝ) 0 0 = 1 := by
    simp [softmax, softmaxRow, rowMax]
  rw [h]
  exact lt_irrefl 1

/-- C2 (amended): for every real matrix `Z`, each row of `softmax(Z)` sums
to 1, every entry lies in (0,1], every entry is strictly below 1 as soon as
the row has at least two columns (in particular for the 3-class use in this
program), and the max-subtracted computation equals the unshifted softmax
definition. -/
theorem softmax_rowwise_props {m n : ℕ} (Z : Matrix (Fin m) (Fin (n + 1)) ℝ)
    (i : Fin m) :
    (∑ j, softmax Z i j) = 1 ∧
    (∀ j, 0 < softmax Z i j ∧ softmax Z i j ≤ 1) ∧
    (1 ≤ n → ∀ j, softmax Z i j < 1) ∧
    (∀ j, softmax Z i j = Real.exp (Z i j) / ∑ k, Real.exp (Z i k)) := by
  refine ⟨softmaxRow_sum_eq_one (Z i),
    fun j => ⟨softmaxRow_pos (Z i) j, softmaxRow_le_one (Z i) j⟩,
    fun hn j => softmaxRow_lt_one hn (Z i) j,
    fun j => softmaxRow_eq_unshifted (Z i) j⟩

/-- C2 (witness for the amended theorem): the instance at the 1×2 zero
matrix, discharging the row-width hypothesis. -/
theorem softmax_rowwise_props_witness :
    (1 ≤ 1) ∧
    (∀ j, softmax (Matrix.of fun _ _ => (0 : ℝ) : Matrix (Fin 1) (Fin 2) ℝ) 0 j < 1) :=
  ⟨by decide,
    (softmax_rowwise_props (Matrix.of fun _ _ => (0 : ℝ)) 0).2.2.1 (by decide)⟩

/-- The clipping bound `epsilon = 1e-15` of `compute_loss`. -/
def epsilon : ℝ := 1e-15

/-- Source `np.clip(y_pred, epsilon, 1 - epsilon)`, elementwise. -/
def clip (x : ℝ) : ℝ := min (max x epsilon) (1 - epsilon)

/-- Source `compute_loss` of `train.py`:
`-np.mean(np.sum(y_true * np.log(np.clip(y_pred, eps, 1-eps)), axis=1))`,
the batch mean being the sum over rows divided by the number of rows. -/
def compute_loss {m n : ℕ} (y_pred y_true : Matrix (Fin m) (Fin n) ℝ) : ℝ :=
  -((∑ i, ∑ j, y_true i j * Real.log (clip (y_pred i j))) / (m : ℝ))

/-- A one-hot vector: exactly one entry is 1 and all others are 0. -/
def IsOneHot {n : ℕ} (v : Fin n → ℝ) : Prop :=
  ∃ k, v k = 1 ∧ ∀ j, j ≠ k → v j = 0

lemma clip_pos (x : ℝ) : 0 < clip x := by
  apply lt_min
  · exact lt_of_lt_of_le (by norm_num [epsilon]) (le_max_right x epsilon)
  · norm_num [epsilon]

lemma clip_lt_one (x : ℝ) : clip x < 1 :=
  lt_of_le_of_lt (min_le_right _ _) (by norm_num [epsilon])

lemma log_clip_neg (x : ℝ) : Real.log (clip x) < 0 :=
  Real.log_neg (clip_pos x) (clip_lt_one x)

/-- C3: on a nonempty batch with one-hot labels, the clipped cross-entropy
loss is non-negative and never exactly 0 (clipping keeps every prediction
strictly below 1, so each sample contributes a strictly positive term). -/
theorem compute_loss_nonneg_ne_zero {m n : ℕ}
    (y_pred y_true : Matrix (Fin m) (Fin n) ℝ)
    (hm : 0 < m) (hot : ∀ i, IsOneHot (y_true i)) :
    0 ≤ compute_loss y_pred y_true ∧ compute_loss y_pred y_true ≠ 0 := by
  have key : ∀ i : Fin m,
      (∑ j, y_true i j * Real.log (clip (y_pred i j))) < 0 := by
    intro i
    obtain ⟨k, hk1, hk0⟩ := hot i
    have hrow : (∑ j, y_true i j * Real.log (clip (y_pred i j)))
        = Real.log (clip (y_pred i k)) := by
      rw [Finset.sum_eq_single k]
      · rw [hk1, one_mul]
      · intro b _ hb
        rw [hk0 b hb, zero_mul]
      · intro h
        exact absurd (Finset.mem_univ k) h
    rw [hrow]
    exact log_clip_neg _
  have hne : (Finset.univ : Finset (Fin m)).Nonempty :=
    ⟨⟨0, hm⟩, Finset.mem_univ _⟩
  have hsum : (∑ i, ∑ j, y_true i j * Real.log (clip (y_pred i j)))
      < ∑ _i : Fin m, (0 : ℝ) :=
    Finset.sum_lt_sum_of_nonempty hne (fun i _ => key i)
  rw [Finset.sum_const, smul_zero] at hsum
  have hmR : (0 : ℝ) < (m : ℝ) := by exact_mod_cast hm
  have hdiv : (∑ i, ∑ j, y_true i j * Real.log (clip (y_pred i j))) / (m : ℝ)
      < 0 := div_neg_of_neg_of_pos hsum hmR
  unfold compute_loss
  constructor
  · linarith
  · intro hc
    rw [neg_eq_zero] at hc
    linarith

/-- C3 (witness): a 1-sample, 1-class batch with prediction 1 and one-hot
label; its loss is non-negative and nonzero. -/
theorem compute_loss_nonneg_ne_zero_witness :
    0 ≤ compute_loss (Matrix.of fun _ _ => (1 : ℝ) : Matrix (Fin 1) (Fin 1) ℝ)
        (Matrix.of fun _ _ => (1 : ℝ)) ∧
    compute_loss (Matrix.of fun _ _ => (1 : ℝ) : Matrix (Fin 1) (Fin 1) ℝ)
        (Matrix.of fun _ _ => (1 : ℝ)) ≠ 0 :=
  compute_loss_nonneg_ne_zero _ _ (by decide)
    (fun _ => ⟨0, rfl, fun j hj => absurd (Subsingleton.elim j 0) hj⟩)

end PricePredictor

namespace Generator

/-- The price sequence of one sample in `generate_training_data`:
`prices = [100]`, then four times `prices.append(prices[-1] + change)`.
The outcome of the random draw for step `k`
(`trend * uniform(0.5, 2.0) + normal(0, 1.5)`) is abstracted as an
arbitrary real `c k`. -/
def priceSeq (c : ℕ → ℝ) : ℕ → ℝ
  | 0 => 100
  | k + 1 => priceSeq c k + c k

/-- Source `deltas[i] = (prices[i+1] - prices[i]) / prices[i] * 100`. -/
def delta (c : ℕ → ℝ) (i : Fin 4) : ℝ :=
  (priceSeq c (i + 1) - priceSeq c i) / priceSeq c i * 100

/-- The normalization `min(max(d / 5.0, -1), 1)` applied to each delta. -/
def normalizeDelta (d : ℝ) : ℝ := min (max (d / 5) (-1)) 1

/-- The feature vector of one sample: the four normalized deltas. -/
def featuresOf (c : ℕ → ℝ) : Fin 4 → ℝ := fun i => normalizeDelta (delta c i)

/-- Source `total_change = (prices[-1] - prices[0]) / prices[0] * 100`. -/
def total_change (c : ℕ → ℝ) : ℝ :=
  (priceSeq c 4 - priceSeq c 0) / priceSeq c 0 * 100

/-- The labeling rule of `generate_training_data`:
`[1,0,0]` (UP) if `total_change > 1.5`, `[0,1,0]` (DOWN) if
`total_change < -1.5`, else `[0,0,1]` (SIDEWAYS). -/
def labelOf (t : ℝ) : Fin 3 → ℝ :=
  if 1.5 < t then ![1, 0, 0] else if t < -1.5 then ![0, 1, 0] else ![0, 0, 1]

/-- Source `generate_training_data(n)`: the per-sample random outcomes are passed
in as `draws`; sample `k` contributes its normalized deltas to `X` and the
label of its total change to `y`, index-aligned. -/
def generate_training_data (n : ℕ) (draws : Fin n → ℕ → ℝ) :
    List (Fin 4 → ℝ) × List (Fin 3 → ℝ) :=
  (List.ofFn fun k => featuresOf (draws k),
   List.ofFn fun k => labelOf (total_change (draws k)))

lemma labelOf_up_iff (t : ℝ) : labelOf t 0 = 1 ↔ 1.5 < t := by
  unfold labelOf
  split_ifs with h1 h2 <;> simp <;> linarith

lemma labelOf_down_iff (t : ℝ) : labelOf t 1 = 1 ↔ t < -1.5 := by
  unfold labelOf
  split_ifs with h1 h2 <;> simp <;> linarith

lemma labelOf_side_iff (t : ℝ) : labelOf t 2 = 1 ↔ (-1.5 ≤ t ∧ t ≤ 1.5) := by
  unfold labelOf
  split_ifs with h1 h2 <;> simp <;>
    first
      | (intro h; linarith)
      | exact ⟨by linarith, by linarith⟩
      | linarith

/-- C4: the label depends only on `total_change` (the generator's second
component is literally `labelOf ∘ total_change ∘ draws`), with UP (index 0)
iff `total_change > 1.5`, DOWN (index 1) iff `total_change < -1.5`,
SIDEWAYS (index 2) otherwise; at the boundary values `1.5` and `-1.5` the
label is SIDEWAYS, at `2.0` it is UP, at `-2.0` it is DOWN, and at `0.0`
it is SIDEWAYS. -/
theorem label_assignment_rule (t : ℝ) :
    (∀ n (draws : Fin n → ℕ → ℝ),
      (generate_training_data n draws).2
        = List.ofFn fun k => labelOf (total_change (draws k))) ∧
    (labelOf t 0 = 1 ↔ 1.5 < t) ∧
    (labelOf t 1 = 1 ↔ t < -1.5) ∧
    (labelOf t 2 = 1 ↔ (-1.5 ≤ t ∧ t ≤ 1.5)) ∧
    labelOf 1.5 = ![0, 0, 1] ∧
    labelOf (-1.5) = ![0, 0, 1] ∧
    labelOf 2 = ![1, 0, 0] ∧
    labelOf (-2) = ![0, 1, 0] ∧
    labelOf 0 = ![0, 0, 1] := by
  refine ⟨fun n draws => rfl, labelOf_up_iff t, labelOf_down_iff t,
    labelOf_side_iff t, ?_, ?_, ?_, ?_, ?_⟩
  · norm_num [labelOf]
  · norm_num [labelOf]
  · norm_num [labelOf]
  · norm_num [labelOf]
  · norm_num [labelOf]

/-- C4 (witness): the labeling rule evaluated at total change 2.0. -/
theorem label_assignment_rule_witness : labelOf 2 = ![1, 0, 0] :=
  (label_assignment_rule 2).2.2.2.2.2.2.1

lemma up_isOneHot : PricePredictor.IsOneHot ![(1 : ℝ), 0, 0] :=
  ⟨0, by simp, fun j hj => by fin_cases j <;> simp_all⟩

lemma down_isOneHot : PricePredictor.IsOneHot ![(0 : ℝ), 1, 0] :=
  ⟨1, by simp, fun j hj => by fin_cases j <;> simp_all⟩

lemma side_isOneHot : PricePredictor.IsOneHot ![(0 : ℝ), 0, 1] :=
  ⟨2, by simp, fun j hj => by fin_cases j <;> simp_all⟩

lemma labelOf_isOneHot (t : ℝ) : PricePredictor.IsOneHot (labelOf t) := by
  unfold labelOf
  split_ifs
  · exact up_isOneHot
  · exact down_isOneHot
  · exact side_isOneHot

/-- C5: for every sample count and every outcome of the random draws,
`generate_training_data` returns two index-aligned lists of length
`sample_count`; every feature lies in [-1, 1] (each delta is divided by 5
and clamped) and every label vector is one-hot over its 3 positions. -/
theorem generated_samples_well_formed (n : ℕ) (draws : Fin n → ℕ → ℝ) :
    (generate_training_data n draws).1.length = n ∧
    (generate_training_data n draws).2.length = n ∧
    (∀ xv ∈ (generate_training_data n draws).1, ∀ i, -1 ≤ xv i ∧ xv i ≤ 1) ∧
    (∀ lv ∈ (generate_training_data n draws).2, PricePredictor.IsOneHot lv) := by
  refine ⟨by simp [generate_training_data], by simp [generate_training_data],
    ?_, ?_⟩
  · intro xv hxv i
    rw [generate_training_data] at hxv
    simp only [List.mem_ofFn] at hxv
    obtain ⟨k, rfl⟩ := hxv
    unfold featuresOf normalizeDelta
    exact ⟨le_min (le_max_right _ _) (by norm_num), min_le_right _ _⟩
  · intro lv hlv
    rw [generate_training_data] at hlv
    simp only [List.mem_ofFn] at hlv
    obtain ⟨k, rfl⟩ := hlv
    exact labelOf_isOneHot _

/-- C5 (witness): the single sample generated from all-zero draws is a
member of both lists; its features are within bounds and its label is
one-hot. -/
theorem generated_samples_well_formed_witness :
    (featuresOf (fun _ => 0) ∈ (generate_training_data 1 (fun _ _ => 0)).1) ∧
    (∀ i, -1 ≤ featuresOf (fun _ => 0) i ∧ featuresOf (fun _ => 0) i ≤ 1) ∧
    (labelOf (total_change fun _ => 0)
      ∈ (generate_training_data 1 (fun _ _ => 0)).2) ∧
    PricePredictor.IsOneHot (labelOf (total_change fun _ => 0)) := by
  have hx : featuresOf (fun _ => 0)
      ∈ (generate_training_data 1 (fun _ _ => 0)).1 := by
    rw [generate_training_data]
    simp only [List.mem_ofFn, Set.mem_range]
    exact ⟨0, trivial⟩
  have hl : labelOf (total_change fun _ => 0)
      ∈ (generate_training_data 1 (fun _ _ => 0)).2 := by
    rw [generate_training_data]
    simp only [List.mem_ofFn, Set.mem_range]
    exact ⟨0, trivial⟩
  exact ⟨hx,
    (generated_samples_well_formed 1 (fun _ _ => 0)).2.2.1 _ hx,
    hl,
    (generated_samples_well_formed 1 (fun _ _ => 0)).2.2.2 _ hl⟩

end Generator


namespace Train

/-- Source `split = int(0.8 * len(X))` of `train` (line 164).  For batch sizes in
the representable range the float product truncates to `⌊4n/5⌋`. -/
def splitIndex (n : ℕ) : ℕ := 4 * n / 5

/-- Source `X_train, X_test = X[:split], X[split:]` and
`y_train, y_test = y[:split], y[split:]` of `train`, both slices using the
same `split = splitIndex X.length`, before any shuffling (the per-epoch
shuffle happens later, inside the epoch loop, on the training subset only). -/
def splitData {α β : Type} (X : List α) (y : List β) :
    (List α × List α) × (List β × List β) :=
  ((X.take (splitIndex X.length), X.drop (splitIndex X.length)),
   (y.take (splitIndex X.length), y.drop (splitIndex X.length)))

lemma splitIndex_le (n : ℕ) : splitIndex n ≤ n := by
  unfold splitIndex
  omega

/-- C6: the 80/20 split takes the first `⌊0.8·n⌋` samples, in generation
order, as the training subset and the rest as the evaluation subset; the two
subsets concatenate back to the whole dataset (cover), the training subset
holds exactly the entries at indices `< split` and the evaluation subset the
entries at indices `≥ split` (disjoint index ranges), and features and
labels are split at the same index. -/
theorem split_first_80_percent {α β : Type} (X : List α) (y : List β)
    (hlen : y.length = X.length) :
    (splitData X y).1.1 ++ (splitData X y).1.2 = X ∧
    (splitData X y).2.1 ++ (splitData X y).2.2 = y ∧
    (splitData X y).1.1.length = splitIndex X.length ∧
    (splitData X y).2.1.length = splitIndex X.length ∧
    (∀ i, i < splitIndex X.length → (splitData X y).1.1[i]? = X[i]?) ∧
    (∀ i, (splitData X y).1.2[i]? = X[splitIndex X.length + i]?) ∧
    (∀ i, i < splitIndex X.length → (splitData X y).2.1[i]? = y[i]?) ∧
    (∀ i, (splitData X y).2.2[i]? = y[splitIndex X.length + i]?) := by
  unfold splitData
  refine ⟨List.take_append_drop _ _, List.take_append_drop _ _, ?_, ?_,
    fun i hi => List.getElem?_take_of_lt hi,
    fun i => List.getElem?_drop X _ i,
    fun i hi => List.getElem?_take_of_lt hi,
    fun i => List.getElem?_drop y _ i⟩
  · rw [List.length_take]
    exact Nat.min_eq_left (splitIndex_le _)
  · rw [List.length_take, hlen]
    exact Nat.min_eq_left (splitIndex_le _)

/-- C6 (witness): the split of a concrete 5-element dataset at index 4. -/
theorem split_first_80_percent_witness :
    ((splitData [0, 1, 2, 3, 4] [5, 6, 7, 8, 9] : _)).1.1 ++
        (splitData [0, 1, 2, 3, 4] [5, 6, 7, 8, 9]).1.2 = [0, 1, 2, 3, 4] ∧
    (splitData [0, 1, 2, 3, 4] [5, 6, 7, 8, 9]).1.1.length
        = splitIndex (5 : ℕ) ∧
    (splitData ([0, 1, 2, 3, 4] : List ℕ) ([5, 6, 7, 8, 9] : List ℕ)).1.1[2]?
        = ([0, 1, 2, 3, 4] : List ℕ)[2]? := by
  have h := split_first_80_percent ([0, 1, 2, 3, 4] : List ℕ)
    ([5, 6, 7, 8, 9] : List ℕ) (by decide)
  exact ⟨h.1, h.2.2.1, h.2.2.2.2.1 2 (by decide)⟩

/-- C10: the per-epoch backward step divides each gradient sum by the
training batch size `m`, which `train` makes equal to
`splitIndex sample_count`; that divisor is at least 1 exactly when
`sample_count ≥ 2`.  For `sample_count = 1` (a positive integer, hence
allowed by the declared entry-point precondition) the training subset is
empty and every epoch divides by `m = 0`:  the divisor appearing in
`db2` on the empty batch is the cast of the natural number 0. -/
theorem backward_divisor_needs_two_samples :
    splitIndex 1 = 0 ∧
    (∀ n : ℕ, 1 ≤ splitIndex n ↔ 2 ≤ n) ∧
    (∀ (X : List (Fin 4 → ℝ)) (y : List (Fin 3 → ℝ)),
      X.length = 1 → (splitData X y).1.1 = []) ∧
    (∀ (a : PricePredictor.Acts 0) (y : Matrix (Fin 0) (Fin 3) ℝ) (j : Fin 3),
      PricePredictor.db2 a y j
        = (∑ i, PricePredictor.dz2 a y i j) / ((0 : ℕ) : ℝ)) := by
  refine ⟨rfl, fun n => ?_, fun X y hX => ?_, fun a y j => rfl⟩
  · unfold splitIndex
    omega
  · rw [splitData, hX]
    rfl

/-- C10 (witness): the iff instantiated at `n = 1` and the empty training
subset of a concrete singleton dataset. -/
theorem backward_divisor_needs_two_samples_witness :
    ¬ (1 ≤ splitIndex 1) ∧
    (splitData ([fun _ => (0 : ℝ)] : List (Fin 4 → ℝ)) ([] : List (Fin 3 → ℝ))).1.1 = [] := by
  refine ⟨fun hc => ?_, ?_⟩
  · have h := (backward_divisor_needs_two_samples.2.1 1).mp hc
    omega
  · exact backward_divisor_needs_two_samples.2.2.1 ([fun _ => (0 : ℝ)] : List (Fin 4 → ℝ)) [] rfl

end Train


namespace Train

/-- The classifier's transient cache: the activations of the most recent
`forward` call, on whatever batch size that call used. -/
structure Cache where
  m : ℕ
  acts : PricePredictor.Acts m

/-- The mutable state of the `PricePredictor` object during `train`:
its four parameters plus the cached activations (initially absent). -/
structure ModelState where
  net : PricePredictor.Net
  cache : Option Cache

/-- Source `model.forward(x)`: recomputes and caches the activations; the
parameters are untouched. -/
def forwardStep {m : ℕ} (S : ModelState) (x : Matrix (Fin m) (Fin 4) ℝ) :
    ModelState :=
  { net := S.net, cache := some ⟨m, PricePredictor.forwardActs S.net x⟩ }

/-- Source `model.backward(x, y, lr)`: reads the cached activations (`self.z1`,
`self.a1`, `self.a2`) and updates the parameters.  If no forward call has
happened, or the cached batch size does not match `x`, numpy raises a
shape error; that failure is `none`. -/
def backwardStep {m : ℕ} (S : ModelState) (x : Matrix (Fin m) (Fin 4) ℝ)
    (y : Matrix (Fin m) (Fin 3) ℝ) (lr : ℝ) : Option ModelState :=
  match S.cache with
  | none => none
  | some c =>
    if h : c.m = m then
      some { net := PricePredictor.backwardNet S.net (h ▸ c.acts) x y lr,
             cache := S.cache }
    else none

/-- The per-epoch shuffle `X_train[indices]`: reorder the rows by a
permutation (the outcome of `np.random.permutation`). -/
def shuffleRows {m k : ℕ} (σ : Equiv.Perm (Fin m)) (A : Matrix (Fin m) (Fin k) ℝ) :
    Matrix (Fin m) (Fin k) ℝ :=
  Matrix.of fun i => A (σ i)

/-- One iteration of the epoch loop of `train`: shuffle the training
subset, forward on it, backward on the same batch, and - on reporting
epochs - an extra forward on the held-out evaluation subset
(loss/accuracy are pure reads and do not touch the state). -/
def epochStep {mt me : ℕ} (Xtr : Matrix (Fin mt) (Fin 4) ℝ)
    (ytr : Matrix (Fin mt) (Fin 3) ℝ) (Xev : Matrix (Fin me) (Fin 4) ℝ)
    (lr : ℝ) (σ : Equiv.Perm (Fin mt)) (doEval : Bool) (S : ModelState) :
    Option ModelState :=
  (backwardStep (forwardStep S (shuffleRows σ Xtr)) (shuffleRows σ Xtr)
      (shuffleRows σ ytr) lr).map
    (fun S2 => if doEval then forwardStep S2 Xev else S2)

/-- The epoch loop of `train`: epoch `e` (0-indexed) uses the permutation
`σs e` and runs the evaluation forward exactly when `evalAt e`. -/
def runEpochs {mt me : ℕ} (Xtr : Matrix (Fin mt) (Fin 4) ℝ)
    (ytr : Matrix (Fin mt) (Fin 3) ℝ) (Xev : Matrix (Fin me) (Fin 4) ℝ)
    (lr : ℝ) (σs : ℕ → Equiv.Perm (Fin mt)) (evalAt : ℕ → Bool) :
    ℕ → ModelState → Option ModelState
  | 0, S => some S
  | e + 1, S =>
    (runEpochs Xtr ytr Xev lr σs evalAt e S).bind
      (epochStep Xtr ytr Xev lr (σs e) (evalAt e))

/-- Source `(epoch + 1) % 10 == 0`: the reporting epochs of `train`, 1-indexed. -/
def evalEvery10 (e : ℕ) : Bool := (e + 1) % 10 == 0

/-- What one epoch does to the parameters alone: backward on the freshly
recomputed forward activations of the shuffled batch. -/
def netEpochUpdate {mt : ℕ} (Xtr : Matrix (Fin mt) (Fin 4) ℝ)
    (ytr : Matrix (Fin mt) (Fin 3) ℝ) (lr : ℝ) (σ : Equiv.Perm (Fin mt))
    (nw : PricePredictor.Net) : PricePredictor.Net :=
  PricePredictor.backwardNet nw
    (PricePredictor.forwardActs nw (shuffleRows σ Xtr)) (shuffleRows σ Xtr)
    (shuffleRows σ ytr) lr

/-- The parameter trace, epoch by epoch, ignoring the cache entirely. -/
def netTrace {mt : ℕ} (Xtr : Matrix (Fin mt) (Fin 4) ℝ)
    (ytr : Matrix (Fin mt) (Fin 3) ℝ) (lr : ℝ) (σs : ℕ → Equiv.Perm (Fin mt)) :
    ℕ → PricePredictor.Net → PricePredictor.Net
  | 0, nw => nw
  | e + 1, nw => netEpochUpdate Xtr ytr lr (σs e) (netTrace Xtr ytr lr σs e nw)

/-- On the batch the forward call just cached, `backward` succeeds and
uses exactly those cached activations. -/
lemma backwardStep_forwardStep {m : ℕ} (S : ModelState)
    (x : Matrix (Fin m) (Fin 4) ℝ) (y : Matrix (Fin m) (Fin 3) ℝ) (lr : ℝ) :
    backwardStep (forwardStep S x) x y lr
      = some ⟨PricePredictor.backwardNet S.net
            (PricePredictor.forwardActs S.net x) x y lr,
          some ⟨m, PricePredictor.forwardActs S.net x⟩⟩ :=
  dif_pos rfl

lemma epochStep_eq_some {mt me : ℕ} (Xtr : Matrix (Fin mt) (Fin 4) ℝ)
    (ytr : Matrix (Fin mt) (Fin 3) ℝ) (Xev : Matrix (Fin me) (Fin 4) ℝ)
    (lr : ℝ) (σ : Equiv.Perm (Fin mt)) (doEval : Bool) (S : ModelState) :
    ∃ S2 : ModelState,
      epochStep Xtr ytr Xev lr σ doEval S = some S2 ∧
      S2.net = netEpochUpdate Xtr ytr lr σ S.net := by
  unfold epochStep
  rw [backwardStep_forwardStep]
  cases doEval <;> exact ⟨_, rfl, rfl⟩

/-- The mapped parameter value after `E` epochs is always defined and equal
to the cache-free parameter trace, for every placement of evaluation
passes. -/
lemma runEpochs_net {mt me : ℕ} (Xtr : Matrix (Fin mt) (Fin 4) ℝ)
    (ytr : Matrix (Fin mt) (Fin 3) ℝ) (Xev : Matrix (Fin me) (Fin 4) ℝ)
    (lr : ℝ) (σs : ℕ → Equiv.Perm (Fin mt)) (evalAt : ℕ → Bool) (E : ℕ)
    (S : ModelState) :
    (runEpochs Xtr ytr Xev lr σs evalAt E S).map ModelState.net
      = some (netTrace Xtr ytr lr σs E S.net) := by
  induction E with
  | zero => rfl
  | succ e ih =>
    rw [runEpochs]
    obtain ⟨Se, hSe, hnet⟩ := Option.map_eq_some'.mp ih
    rw [hSe]
    obtain ⟨S2, hS2, hnet2⟩ :=
      epochStep_eq_some Xtr ytr Xev lr (σs e) (evalAt e) Se
    show (epochStep Xtr ytr Xev lr (σs e) (evalAt e) Se).map ModelState.net
      = _
    rw [hS2, Option.map_some', hnet2, hnet]
    rfl

/-- C7: the every-10th-epoch evaluation pass has no effect on training:
after any number of epochs, the parameters obtained with the evaluation
forwards (`evalEvery10`) are exactly the parameters obtained with no
evaluation forwards at all, for the same shuffles, even though each
evaluation forward overwrites the cached activations - the next epoch's
training forward re-establishes the cache before backward reads it.  Both
runs succeed and follow the cache-free trace `netTrace`. -/
theorem eval_pass_has_no_effect_on_params {mt me : ℕ}
    (Xtr : Matrix (Fin mt) (Fin 4) ℝ) (ytr : Matrix (Fin mt) (Fin 3) ℝ)
    (Xev : Matrix (Fin me) (Fin 4) ℝ) (lr : ℝ)
    (σs : ℕ → Equiv.Perm (Fin mt)) (E : ℕ) (S : ModelState) :
    (runEpochs Xtr ytr Xev lr σs evalEvery10 E S).map ModelState.net
      = (runEpochs Xtr ytr Xev lr σs (fun _ => false) E S).map ModelState.net
    ∧ (runEpochs Xtr ytr Xev lr σs evalEvery10 E S).map ModelState.net
      = some (netTrace Xtr ytr lr σs E S.net) := by
  refine ⟨?_, runEpochs_net Xtr ytr Xev lr σs evalEvery10 E S⟩
  rw [runEpochs_net, runEpochs_net]

end Train


namespace Export

/-- The `architecture` object of the exported document. -/
structure Architecture where
  input_size : ℕ
  hidden_size : ℕ
  output_size : ℕ
  activation : String
  output_activation : String

/-- The `weights` object of the exported document: the four parameter
arrays in nested-array form (`ndarray.tolist()`). -/
structure WeightsDoc where
  W1 : List (List ℝ)
  b1 : List ℝ
  W2 : List (List ℝ)
  b2 : List ℝ

/-- The dictionary `export_weights` builds: exactly the five top-level
fields `model`, `version`, `architecture`, `weights`, `labels`. -/
structure ExportDoc where
  model : String
  version : String
  architecture : Architecture
  weights : WeightsDoc
  labels : List String

/-- Source `ndarray.tolist()` for a matrix. -/
def matToList {m n : ℕ} (A : Matrix (Fin m) (Fin n) ℝ) : List (List ℝ) :=
  List.ofFn fun i => List.ofFn fun j => A i j

/-- Source `ndarray.tolist()` for a vector. -/
def vecToList {n : ℕ} (v : Fin n → ℝ) : List ℝ := List.ofFn v

/-- Source `export_weights` of `train.py`: the document it serializes, built
purely from the current parameter values and the fixed sizes. -/
def export_weights (p : PricePredictor.Net) : ExportDoc where
  model := "price-predictor"
  version := "1.0.0"
  architecture :=
    { input_size := 4, hidden_size := 16, output_size := 3,
      activation := "relu", output_activation := "softmax" }
  weights :=
    { W1 := matToList p.W1, b1 := vecToList p.b1,
      W2 := matToList p.W2, b2 := vecToList p.b2 }
  labels := ["UP", "DOWN", "SIDEWAYS"]

/-- A JSON value, as `json.dump` serializes it: the rendering of equal
values is byte-for-byte identical (deterministic key order = dict
insertion order, fixed indentation, no timestamps). -/
inductive Jval where
  | num : ℝ → Jval
  | str : String → Jval
  | arr : List Jval → Jval
  | obj : List (String × Jval) → Jval

/-- The JSON value `json.dump(weights, f, indent=2)` writes. -/
def jsonOfDoc (d : ExportDoc) : Jval :=
  .obj
    [("model", .str d.model),
     ("version", .str d.version),
     ("architecture", .obj
        [("input_size", .num d.architecture.input_size),
         ("hidden_size", .num d.architecture.hidden_size),
         ("output_size", .num d.architecture.output_size),
         ("activation", .str d.architecture.activation),
         ("output_activation", .str d.architecture.output_activation)]),
     ("weights", .obj
        [("W1", .arr (d.weights.W1.map fun r => .arr (r.map .num))),
         ("b1", .arr (d.weights.b1.map .num)),
         ("W2", .arr (d.weights.W2.map fun r => .arr (r.map .num))),
         ("b2", .arr (d.weights.b2.map .num))]),
     ("labels", .arr (d.labels.map .str))]

/-- C8: for every model state the exported artifact has the constant model
string, the semantic version, the 4/16/3 architecture with activations
`relu` and `softmax`, the four weight arrays of shapes (4,16), 16, (16,3),
3 whose entries equal the model's parameter values, and the ordered label
list `["UP","DOWN","SIDEWAYS"]` whose indices 0, 1, 2 coincide with the
one-hot class indices the generator assigns to rising, falling and flat. -/
theorem export_artifact_contract (p : PricePredictor.Net) :
    (export_weights p).model = "price-predictor" ∧
    (export_weights p).version = "1.0.0" ∧
    (export_weights p).architecture
      = ⟨4, 16, 3, "relu", "softmax"⟩ ∧
    (export_weights p).weights.W1.length = 4 ∧
    (∀ r ∈ (export_weights p).weights.W1, r.length = 16) ∧
    (export_weights p).weights.b1.length = 16 ∧
    (export_weights p).weights.W2.length = 16 ∧
    (∀ r ∈ (export_weights p).weights.W2, r.length = 3) ∧
    (export_weights p).weights.b2.length = 3 ∧
    (∀ (i : Fin 4) (j : Fin 16),
      ∃ r, (export_weights p).weights.W1[(i : ℕ)]? = some r ∧
        r[(j : ℕ)]? = some (p.W1 i j)) ∧
    (∀ j : Fin 16, (export_weights p).weights.b1[(j : ℕ)]? = some (p.b1 j)) ∧
    (∀ (i : Fin 16) (j : Fin 3),
      ∃ r, (export_weights p).weights.W2[(i : ℕ)]? = some r ∧
        r[(j : ℕ)]? = some (p.W2 i j)) ∧
    (∀ j : Fin 3, (export_weights p).weights.b2[(j : ℕ)]? = some (p.b2 j)) ∧
    (export_weights p).labels = ["UP", "DOWN", "SIDEWAYS"] ∧
    ((export_weights p).labels[0]? = some "UP" ∧
      ∀ t : ℝ, 1.5 < t → Generator.labelOf t 0 = 1) ∧
    ((export_weights p).labels[1]? = some "DOWN" ∧
      ∀ t : ℝ, t < -1.5 → Generator.labelOf t 1 = 1) ∧
    ((export_weights p).labels[2]? = some "SIDEWAYS" ∧
      ∀ t : ℝ, -1.5 ≤ t → t ≤ 1.5 → Generator.labelOf t 2 = 1) := by
  refine ⟨rfl, rfl, rfl, by simp [export_weights, matToList], ?_,
    by simp [export_weights, vecToList],
    by simp [export_weights, matToList], ?_,
    by simp [export_weights, vecToList], ?_, ?_, ?_, ?_, rfl,
    ⟨rfl, fun t ht => ?_⟩, ⟨rfl, fun t ht => ?_⟩, ⟨rfl, fun t h1 h2 => ?_⟩⟩
  · intro r hr
    rw [export_weights] at hr
    simp only [matToList, List.mem_ofFn, Set.mem_range] at hr
    obtain ⟨k, rfl⟩ := hr
    simp
  · intro r hr
    rw [export_weights] at hr
    simp only [matToList, List.mem_ofFn, Set.mem_range] at hr
    obtain ⟨k, rfl⟩ := hr
    simp
  · intro i j
    refine ⟨List.ofFn fun k => p.W1 i k, ?_, ?_⟩ <;>
      · simp only [export_weights, matToList, List.getElem?_ofFn,
          List.ofFnNthVal]
        rw [dif_pos (Fin.is_lt _)]
  · intro j
    simp only [export_weights, vecToList, List.getElem?_ofFn,
      List.ofFnNthVal]
    rw [dif_pos (Fin.is_lt _)]
  · intro i j
    refine ⟨List.ofFn fun k => p.W2 i k, ?_, ?_⟩ <;>
      · simp only [export_weights, matToList, List.getElem?_ofFn,
          List.ofFnNthVal]
        rw [dif_pos (Fin.is_lt _)]
  · intro j
    simp only [export_weights, vecToList, List.getElem?_ofFn,
      List.ofFnNthVal]
    rw [dif_pos (Fin.is_lt _)]
  · exact (Generator.labelOf_up_iff t).mpr ht
  · exact (Generator.labelOf_down_iff t).mpr ht
  · exact (Generator.labelOf_side_iff t).mpr ⟨h1, h2⟩

/-- C8 (witness): the contract instantiated at the all-zero parameters,
with the label-rule implications discharged at the concrete total changes
2, -2 and 0. -/
theorem export_artifact_contract_witness :
    (export_weights ⟨0, fun _ => 0, 0, fun _ => 0⟩).model
        = "price-predictor" ∧
    Generator.labelOf 2 0 = 1 ∧
    Generator.labelOf (-2) 1 = 1 ∧
    Generator.labelOf 0 2 = 1 :=
  ⟨(export_artifact_contract ⟨0, fun _ => 0, 0, fun _ => 0⟩).1,
    (export_artifact_contract ⟨0, fun _ => 0, 0, fun _ => 0⟩).2.2.2.2.2.2.2.2.2.2.2.2.2.2.1.2
      2 (by norm_num),
    (export_artifact_contract ⟨0, fun _ => 0, 0, fun _ => 0⟩).2.2.2.2.2.2.2.2.2.2.2.2.2.2.2.1.2
      (-2) (by norm_num),
    (export_artifact_contract ⟨0, fun _ => 0, 0, fun _ => 0⟩).2.2.2.2.2.2.2.2.2.2.2.2.2.2.2.2.2
      0 (by norm_num) (by norm_num)⟩

/-- C9: export is deterministic in the model state: two exports from equal
parameter values produce the same JSON document, hence byte-for-byte
identical serialized content (the document has no timestamp or other
run-dependent field). -/
theorem export_deterministic (p q : PricePredictor.Net)
    (h1 : p.W1 = q.W1) (h2 : p.b1 = q.b1) (h3 : p.W2 = q.W2)
    (h4 : p.b2 = q.b2) :
    jsonOfDoc (export_weights p) = jsonOfDoc (export_weights q) := by
  have hpq : p = q := by
    cases p
    cases q
    simp_all
  rw [hpq]

/-- C9 (witness): re-exporting the all-zero parameters yields the identical
document. -/
theorem export_deterministic_witness :
    jsonOfDoc (export_weights ⟨0, fun _ => 0, 0, fun _ => 0⟩)
      = jsonOfDoc (export_weights ⟨0, fun _ => 0, 0, fun _ => 0⟩) :=
  export_deterministic ⟨0, fun _ => 0, 0, fun _ => 0⟩
    ⟨0, fun _ => 0, 0, fun _ => 0⟩ rfl rfl rfl rfl

end Export

end
